import Mathlib

/-!
# starrlink: a shallow embedding of `main.go`

The program asks a Sonarr service for the episode files of one series and
hard-links each of them into `<dest>/<Title>.S<NN>/<sceneName><ext>`.

Go strings are modelled by `String`; the library routines the program calls
(`strings.TrimPrefix`, `strings.ReplaceAll`, `filepath.Clean`, `filepath.Join`,
`filepath.Ext`, the `%d` / `%02d` verbs of `fmt`) are transcribed from the Go
standard library for a Unix target (separator `/`, no volume names) and work on
the character list of the string; the only bytes they single out are the ASCII
characters `/`, `.` and the blank, so that reading a UTF-8 string by character
or by byte makes no difference to them.  Integers are unbounded: the program
does no arithmetic on them.  The service, the environment variables, the flag
parser and the filesystem are parameters of the model (`Env`), and every call
the program makes on them is recorded, in order, in a trace; a run ends by
returning, by `os.Exit`, or in a runtime panic.
-/

namespace Starrlink

/-! ## Library routines -/

/-- Go `os.IsPathSeparator` on Unix. -/
def isPathSeparator (c : Char) : Bool := c == '/'

/-- Go `strings.HasPrefix` on character lists. -/
def hasPrefixChars : List Char → List Char → Bool
  | _, [] => true
  | [], _ :: _ => false
  | c :: s, d :: pre => c == d && hasPrefixChars s pre

/-- Go `strings.HasPrefix(s, pre)`. -/
def HasPrefix (s pre : String) : Bool := hasPrefixChars s.data pre.data

/-- Go `strings.TrimPrefix(s, pre)`: `s[len(pre):]` when `s` starts with `pre`,
`s` itself otherwise. -/
def TrimPrefix (s pre : String) : String :=
  if HasPrefix s pre then ⟨s.data.drop pre.data.length⟩ else s

/-- Go `strings.ReplaceAll(s, old, new)` for a non-empty `old`, scanning left to
right over non-overlapping matches.  `skip` counts the characters of the match
in progress that are still to be passed over. -/
def replaceAllChars (old new : List Char) : Nat → List Char → List Char
  | _, [] => []
  | skip + 1, _ :: s => replaceAllChars old new skip s
  | 0, c :: s =>
    if hasPrefixChars (c :: s) old then new ++ replaceAllChars old new (old.length - 1) s
    else c :: replaceAllChars old new 0 s

/-- Go `strings.ReplaceAll(s, old, new)` (for non-empty `old`). -/
def ReplaceAll (s old new : String) : String :=
  ⟨replaceAllChars old.data new.data 0 s.data⟩

/-- The backtracking of `filepath.Clean` at a `..` element, on the reversed
output buffer: `out.w--` and then
`for out.w > dotdot && !os.IsPathSeparator(out.index(out.w)) { out.w-- }`. -/
def cleanBacktrack (dotdot : Nat) : List Char → List Char
  | [] => []
  | c :: out => if out.length > dotdot && !isPathSeparator c then cleanBacktrack dotdot out else out

/-- Whether the reading position is at the end of a path element: `r == n` or
`os.IsPathSeparator(path[r])`. -/
def atElementEnd : List Char → Bool
  | [] => true
  | c :: _ => isPathSeparator c

/-- The main loop of `filepath.Clean`.  `path` is what is left to read, `out` the
output buffer reversed, `dotdot` the index where `..` must stop.  `copying` is
true while the inner loop of the default case copies a real path element; it
ends at the next separator (which the outer loop then skips) or at the end. -/
def cleanLoop (rooted : Bool) : Bool → List Char → List Char → Nat → List Char
  | _, [], out, _ => out
  | true, c :: path, out, dotdot =>
    if isPathSeparator c then cleanLoop rooted false path out dotdot
    else cleanLoop rooted true path (c :: out) dotdot
  | false, c :: path, out, dotdot =>
    if isPathSeparator c then
      -- empty path element
      cleanLoop rooted false path out dotdot
    else if c == '.' && atElementEnd path then
      -- . element
      cleanLoop rooted false path out dotdot
    else
      -- real path element: add slash if needed, then copy the element
      let out1 := if (rooted && out.length != 1) || (!rooted && out.length != 0)
        then '/' :: out else out
      match path with
      | [] => c :: out1
      | d :: rest =>
        if c == '.' && d == '.' && atElementEnd rest then
          -- .. element: remove to last separator
          if out.length > dotdot then
            cleanLoop rooted false rest (cleanBacktrack dotdot out) dotdot
          else if !rooted then
            let out2 := '.' :: '.' :: (if out.length > 0 then '/' :: out else out)
            cleanLoop rooted false rest out2 out2.length
          else cleanLoop rooted false rest out dotdot
        else cleanLoop rooted true (d :: rest) (c :: out1) dotdot

/-- Go `filepath.Clean` on Unix, on character lists. -/
def cleanChars (path : List Char) : List Char :=
  match path with
  | [] => ['.']
  | c :: rest =>
    let out :=
      if isPathSeparator c then cleanLoop true false rest ['/'] 1
      else cleanLoop false false (c :: rest) [] 0
    -- Turn empty string into "."
    if out.length == 0 then ['.'] else out.reverse

/-- Go `filepath.Clean` on Unix. -/
def Clean (path : String) : String := ⟨cleanChars path.data⟩

/-- Go `strings.Join(elems, sep)` on character lists. -/
def stringsJoin (sep : List Char) : List (List Char) → List Char
  | [] => []
  | [e] => e
  | e :: es => e ++ sep ++ stringsJoin sep es

/-- Go `filepath.Join` on Unix, on character lists: leading empty elements are
dropped, the rest is joined with the separator and cleaned; the result is empty
when every element is. -/
def joinChars : List (List Char) → List Char
  | [] => []
  | e :: es => if e ≠ [] then cleanChars (stringsJoin ['/'] (e :: es)) else joinChars es

/-- Go `filepath.Join(elem...)` on Unix. -/
def Join (elem : List String) : String := ⟨joinChars (elem.map String.data)⟩

/-- The loop of `filepath.Ext` on the reversed path: walk back from the end
while the character is not a separator, and return the suffix from the first
dot met. `acc` is the part of the path already walked over. -/
def extLoop : List Char → List Char → List Char
  | [], _ => []
  | c :: rev, acc =>
    if isPathSeparator c then []
    else if c == '.' then c :: acc
    else extLoop rev (c :: acc)

/-- Go `filepath.Ext(path)`. -/
def Ext (path : String) : String := ⟨extLoop path.data.reverse []⟩

/-- The integer verb of `fmt` in base 10 (`fmtInteger`): `%d` is
`fmtInteger v none false`, `%02d` is `fmtInteger v (some 2) true`.  With the
zero flag and a width the digits are zero-padded to the width, less one when a
sign is written; the sign is put in front and the whole is left-padded with
blanks to the width. -/
def fmtInteger (v : Int) (wid : Option Nat) (zero : Bool) : List Char :=
  let negative := decide (v < 0)
  let u := v.natAbs
  let prec := match wid with
    | some w => if zero then (if negative then w - 1 else w) else 0
    | none => 0
  let digits := Nat.toDigits 10 u
  let digits := List.replicate (prec - digits.length) '0' ++ digits
  let buf := if negative then '-' :: digits else digits
  match wid with
  | some w => List.replicate (w - buf.length) ' ' ++ buf
  | none => buf

/-- Go `cmp.Or(a, b)` on strings: the first argument that is not the zero value,
the zero value when there is none. -/
def cmpOr (a b : String) : String :=
  if a ≠ "" then a else if b ≠ "" then b else ""

/-- The `%q` verb for the flag and variable names the program passes to it
(plain ASCII without quotes or backslashes): the text in double quotes. -/
def quoted (s : String) : String := "\"" ++ s ++ "\""

/-! ## Data model -/

/-- The fields of `sonarr.Series` the program reads. -/
structure Series where
  ID : Int
  Title : String
  deriving DecidableEq, Repr

/-- The fields of `sonarr.EpisodeFile` the program reads. -/
structure EpisodeFile where
  SeasonNumber : Int
  Path : String
  SceneName : String
  deriving DecidableEq, Repr

/-- The package variable `globals`. -/
structure Globals where
  mapFrom : String
  mapTo : String
  dst : String
  deriving DecidableEq, Repr

/-- The receiver of the Sonarr workflow. -/
structure sonarrCmd where
  url : String
  key : String
  series : Int
  deriving DecidableEq, Repr

/-- One call of the program on the outside world, with its failure if it is a
filesystem call. -/
inductive Event where
  | print (text : String)
  | getSeries (tvdbID : Int)
  | getSeriesEpisodeFiles (seriesID : Int)
  | mkdirAll (path : String) (perm : Nat) (err : Option String)
  | link (oldname newname : String) (err : Option String)
  | getwd
  | parseFlags (arguments : List String)
  deriving DecidableEq, Repr

/-- How a run ends: the function returns (with its error, if any), the process
is ended by `os.Exit(code)`, or a runtime panic unwinds it. -/
inductive Outcome where
  | returned (err : Option String)
  | exit (code : Nat)
  | panic (msg : String)
  deriving DecidableEq, Repr

/-- The outside world: environment variables, working directory, flag parser
(with `flag.ExitOnError`, so a failure is an exit code), the two service calls
of the Sonarr client and the two filesystem calls.  `σ` is the state of the
service and the filesystem; an error is its message. -/
structure Env (σ : Type) where
  getenv : String → String
  getwd : Except String String
  parseFlags : String → List String → Except Nat (Globals × sonarrCmd)
  GetSeries : Int → σ → σ × Except String (List Series)
  GetSeriesEpisodeFiles : Int → σ → σ × Except String (List EpisodeFile)
  MkdirAll : String → Nat → σ → σ × Option String
  Link : String → String → σ → σ × Option String

/-- A finished run: the final state of the world, the calls made in order, and
how the run ended. -/
structure Run (σ : Type) where
  state : σ
  trace : List Event
  outcome : Outcome

/-- The run `r` preceded by the calls `evs`. -/
def Run.after {σ : Type} (evs : List Event) (r : Run σ) : Run σ :=
  { r with trace := evs ++ r.trace }

/-! ## The program -/

/-- `mapPath`: rewrite the leading `mapFrom` of a path to `mapTo`. -/
def mapPath (globals : Globals) (p : String) : String :=
  if globals.mapFrom = "" ∨ globals.mapTo = "" then p
  else
    let p := TrimPrefix p globals.mapFrom
    Join [globals.mapTo, p]

/-- `require` at a string: `none` when the value is set, otherwise the
diagnostic printed and the exit code. -/
def require (param envar val : String) : Option (List Event × Outcome) :=
  if val ≠ "" then none
  else some ([.print ("starrlink: required parameter not provided; flag " ++ quoted param
      ++ " or envar " ++ quoted envar ++ " must be set\n")], .exit 2)

/-- The `for _, ep := range eps` loop of `sonarrCmd.Exec`, with `title` the
dotted series title. -/
def linkLoop {σ : Type} (env : Env σ) (globals : Globals) (title : String) :
    List EpisodeFile → σ → Run σ
  | [], w => ⟨w, [], .returned none⟩
  | ep :: eps, w =>
    let dst := Join [globals.dst, title ++ ".S" ++ ⟨fmtInteger ep.SeasonNumber (some 2) true⟩]
    match env.MkdirAll dst 0o755 w with
    | (w1, some err) =>
      ⟨w1, [.mkdirAll dst 0o755 (some err)],
        .returned (some ("sonarr: unable to create destination: " ++ err))⟩
    | (w1, none) =>
      let src := mapPath globals ep.Path
      let ext := Ext ep.Path
      let link := Join [dst, ep.SceneName ++ ext]
      match env.Link src link w1 with
      | (w2, some err) =>
        ⟨w2, [.mkdirAll dst 0o755 none, .link src link (some err)],
          .returned (some ("sonarr: unable to create link at " ++ link ++ ": " ++ err))⟩
      | (w2, none) =>
        (linkLoop env globals title eps w2).after
          [.mkdirAll dst 0o755 none, .link src link none,
            .print ("sonarr: created link " ++ link ++ "\n")]

/-- `sonarrCmd.Exec`. -/
def Exec {σ : Type} (env : Env σ) (globals : Globals) (s : sonarrCmd) (w : σ) : Run σ :=
  let URL := cmpOr s.url (env.getenv "SONARR_URL")
  let APIKey := cmpOr s.key (env.getenv "SONARR_KEY")
  match require "sonarr-url" "SONARR_URL" URL with
  | some (evs, out) => ⟨w, evs, out⟩
  | none =>
  match require "sonarr-key" "SONARR_KEY" APIKey with
  | some (evs, out) => ⟨w, evs, out⟩
  | none =>
  match env.GetSeries s.series w with
  | (w1, .error err) =>
    ⟨w1, [.getSeries s.series], .returned (some ("sonarr: unable to get series for tvdvb id "
      ++ ⟨fmtInteger s.series none false⟩ ++ ": " ++ err))⟩
  | (w1, .ok series) =>
    match series with
    | [] => ⟨w1, [.getSeries s.series],
        .panic "runtime error: index out of range [0] with length 0"⟩
    | series0 :: _ =>
      match env.GetSeriesEpisodeFiles series0.ID w1 with
      | (w2, .error err) =>
        ⟨w2, [.getSeries s.series, .getSeriesEpisodeFiles series0.ID],
          .returned (some ("sonarr: unable to get series episode files: " ++ err))⟩
      | (w2, .ok eps) =>
        let title := ReplaceAll series0.Title " " "."
        (linkLoop env globals title eps w2).after
          [.getSeries s.series, .getSeriesEpisodeFiles series0.ID]

/-- The workflows `getCmd` can return; there is one. -/
inductive Cmd where
  | sonarr (c : sonarrCmd)
  deriving DecidableEq, Repr

/-- `getCmd`: the workflow named by the first argument, `none` for Go `nil`. -/
def getCmd (args : List String) : Option Cmd :=
  match args with
  | [] => none
  | arg0 :: _ => if arg0 = "sonarr" then some (.sonarr ⟨"", "", 0⟩) else none

/-- `main`, with `args` for `os.Args[1:]`.  `globalFlags` asks for the working
directory, the flag set is parsed over `os.Args[2:]` (the parser fills the
globals and the workflow's fields), and the workflow is executed. -/
def main {σ : Type} (env : Env σ) (args : List String) (w : σ) : Run σ :=
  match getCmd args with
  | none => ⟨w, [.print "starrlink: usage: sonarr <args>\n"], .exit 2⟩
  | some (.sonarr _) =>
    match env.getwd with
    | .error err => ⟨w, [.getwd, .print ("starrlinker: unable to get wd: " ++ err)], .exit 1⟩
    | .ok pwd =>
      match env.parseFlags pwd (args.drop 1) with
      | .error code => ⟨w, [.getwd, .parseFlags (args.drop 1)], .exit code⟩
      | .ok (globals, cmd) =>
        let r := (Exec env globals cmd w).after [.getwd, .parseFlags (args.drop 1)]
        match r.outcome with
        | .returned (some err) =>
          ⟨r.state, r.trace ++ [.print (err ++ "\n")], .exit 1⟩
        | _ => r

/-! ## Definitions used to state the properties -/

/-- The value of `dst` in the loop body of `Exec` for the episode file `ep`. -/
def dstOf (globals : Globals) (title : String) (ep : EpisodeFile) : String :=
  Join [globals.dst, title ++ ".S" ++ ⟨fmtInteger ep.SeasonNumber (some 2) true⟩]

/-- The value of `link` in the loop body of `Exec` for the episode file `ep`. -/
def linkOf (globals : Globals) (title : String) (ep : EpisodeFile) : String :=
  Join [dstOf globals title ep, ep.SceneName ++ Ext ep.Path]

/-- The calls of one loop iteration in which both filesystem steps succeed. -/
def okStep (globals : Globals) (title : String) (ep : EpisodeFile) : List Event :=
  [.mkdirAll (dstOf globals title ep) 0o755 none,
   .link (mapPath globals ep.Path) (linkOf globals title ep) none,
   .print ("sonarr: created link " ++ linkOf globals title ep ++ "\n")]

/-- The calls of a run of the loop over `eps` in which every step succeeds. -/
def okPlan (globals : Globals) (title : String) : List EpisodeFile → List Event
  | [] => []
  | ep :: eps => okStep globals title ep ++ okPlan globals title eps

/-- Whether a call is a filesystem call that failed. -/
def Event.failed : Event → Bool
  | .mkdirAll _ _ (some _) => true
  | .link _ _ (some _) => true
  | _ => false

/-- Whether a call is a hard link that was created. -/
def Event.linked : Event → Bool
  | .link _ _ none => true
  | _ => false

/-- Whether a call is a service call or a filesystem call. -/
def Event.external : Event → Bool
  | .getSeries _ => true
  | .getSeriesEpisodeFiles _ => true
  | .mkdirAll _ _ _ => true
  | .link _ _ _ => true
  | _ => false

/-- The suffix of a character list from its last dot on, empty when it has no
dot: `acc` is the candidate found so far. -/
def fromLastDot : List Char → List Char → List Char
  | [], acc => acc
  | c :: s, acc => if c == '.' then fromLastDot s (c :: s) else fromLastDot s acc

/-- The suffix of a path starting at its last dot, empty when there is none:
the extension as the claim words it, with no regard to path separators. -/
def suffixFromLastDot (path : String) : String := ⟨fromLastDot path.data []⟩

/-- A filesystem for worked examples: the directories made and the files
present (link names included). -/
structure Disk where
  dirs : List String
  files : List String
  deriving DecidableEq, Repr

/-- A world for worked examples.  The service answers every lookup with
`series` and `eps`; `MkdirAll` always succeeds; `Link` fails when the old name
is not a file or the new name is already one. -/
def demoEnv (vars : String → String) (series : List Series) (eps : List EpisodeFile) :
    Env Disk where
  getenv := vars
  getwd := .ok "/work"
  parseFlags := fun _ _ => .error 2
  GetSeries := fun _ d => (d, .ok series)
  GetSeriesEpisodeFiles := fun _ d => (d, .ok eps)
  MkdirAll := fun path _ d => ({ d with dirs := d.dirs ++ [path] }, none)
  Link := fun old new d =>
    if old ∉ d.files then (d, some ("link " ++ old ++ " " ++ new ++ ": no such file or directory"))
    else if new ∈ d.files then (d, some ("link " ++ old ++ " " ++ new ++ ": file exists"))
    else ({ d with files := d.files ++ [new] }, none)

/-- A world in which no directory can be made under the root: `MkdirAll` of a
path under `/out` fails at the parent `/out`. -/
def readOnlyEnv (series : List Series) (eps : List EpisodeFile) : Env Disk :=
  { demoEnv (fun _ => "") series eps with
    MkdirAll := fun _ _ d => (d, some "mkdir /out: permission denied") }

/-- Whether `sub` occurs in `s`, on character lists. -/
def containsChars (sub : List Char) : List Char → Bool
  | [] => hasPrefixChars [] sub
  | c :: s => hasPrefixChars (c :: s) sub || containsChars sub s

/-- Go `strings.Contains(s, sub)`. -/
def Contains (s sub : String) : Bool := containsChars sub.data s.data

/-- The end of an output buffer of `filepath.Clean` (given reversed) admits a
further element: it does not end in a separator, unless it is the lone root. -/
def EndOK (rooted : Bool) (r : List Char) : Prop :=
  r.head? ≠ some '/' ∨ (rooted = true ∧ r = ['/'])

/-- The invariant of the loop of `filepath.Clean` on the reversed output
buffer: no two separators in a row, `dotdot` within the buffer, and both the
buffer and its part up to `dotdot` admit a further element. -/
def CleanInv (rooted : Bool) (out : List Char) (dotdot : Nat) : Prop :=
  ¬ ['/', '/'] <:+: out ∧ dotdot ≤ out.length ∧
    (∀ r, r <:+ out → r.length = dotdot → EndOK rooted r) ∧ EndOK rooted out

/-- The world after the two filesystem calls of one loop iteration for `ep`:
`env.MkdirAll` on its destination directory, then `env.Link` in the state that
call left. -/
def afterStep {σ : Type} (env : Env σ) (globals : Globals) (title : String)
    (ep : EpisodeFile) (w : σ) : σ :=
  (env.Link (mapPath globals ep.Path) (linkOf globals title ep)
    (env.MkdirAll (dstOf globals title ep) 0o755 w).1).1

/-- The world after the filesystem calls for every episode file of `eps`, made
in order from the world `w`. -/
def afterSteps {σ : Type} (env : Env σ) (globals : Globals) (title : String) :
    List EpisodeFile → σ → σ
  | [], w => w
  | ep :: eps, w => afterSteps env globals title eps (afterStep env globals title ep w)

/-- Every filesystem step succeeds: for each episode file of `eps` in order,
`env.MkdirAll` on its destination directory returns no error in the world
reached so far, and `env.Link` returns no error in the world that call left. -/
def stepsSucceed {σ : Type} (env : Env σ) (globals : Globals) (title : String) :
    List EpisodeFile → σ → Bool
  | [], _ => true
  | ep :: eps, w =>
    (env.MkdirAll (dstOf globals title ep) 0o755 w).2.isNone &&
    (env.Link (mapPath globals ep.Path) (linkOf globals title ep)
      (env.MkdirAll (dstOf globals title ep) 0o755 w).1).2.isNone &&
    stepsSucceed env globals title eps (afterStep env globals title ep w)

/-- Three episode files for worked examples. -/
def demoEpisodes : List EpisodeFile :=
  [⟨1, "/tv/show/a.mkv", "Show.S01E01"⟩, ⟨1, "/tv/show/b.mkv", "Show.S01E02"⟩,
   ⟨2, "/tv/show/c.mkv", "Show.S02E01"⟩]

/-- A disk that holds the first and the third of `demoEpisodes` but not the
second, so that the second link fails. -/
def demoDisk : Disk := ⟨[], ["/tv/show/a.mkv", "/tv/show/c.mkv"]⟩

/-! ## Properties -/

/-- C1: `mapPath` is the identity whenever `mapFrom` or `mapTo` is empty: the
path is returned exactly as given, with no cleaning. -/
theorem mapPath_identity (globals : Globals) (p : String)
    (h : globals.mapFrom = "" ∨ globals.mapTo = "") : mapPath globals p = p := by
  unfold mapPath
  rw [if_pos h]

/-- C1 at a path that cleaning would change, with `mapFrom` unset. -/
theorem mapPath_identity_witness :
    mapPath ⟨"", "/x", "/out"⟩ "/a//b/../c/" = "/a//b/../c/" :=
  mapPath_identity ⟨"", "/x", "/out"⟩ "/a//b/../c/" (Or.inl rfl)

theorem hasPrefixChars_append (pre r : List Char) : hasPrefixChars (pre ++ r) pre = true := by
  induction pre with
  | nil => cases r <;> rfl
  | cons c pre ih => simp [hasPrefixChars, ih]

theorem hasPrefixChars_split (s pre : List Char) (h : hasPrefixChars s pre = true) :
    s = pre ++ s.drop pre.length := by
  induction pre generalizing s with
  | nil => simp
  | cons d pre ih =>
    cases s with
    | nil => simp [hasPrefixChars] at h
    | cons c s =>
      simp only [hasPrefixChars, Bool.and_eq_true, beq_iff_eq] at h
      obtain ⟨hc, hs⟩ := h
      subst hc
      simpa using ih s hs

theorem data_ne_nil_of_ne_empty (s : String) (h : s ≠ "") : s.data ≠ [] := by
  intro hd
  apply h
  cases s
  simp_all

theorem TrimPrefix_append (pre r : String) : TrimPrefix (pre ++ r) pre = r := by
  unfold TrimPrefix HasPrefix
  simp [hasPrefixChars_append]

theorem TrimPrefix_of_not_append (p pre : String) (h : ∀ r, p ≠ pre ++ r) :
    TrimPrefix p pre = p := by
  unfold TrimPrefix HasPrefix
  split
  · rename_i hp
    exfalso
    apply h ⟨p.data.drop pre.data.length⟩
    apply String.ext
    rw [String.data_append]
    exact hasPrefixChars_split p.data pre.data hp
  · rfl

theorem Join_pair (a b : String) (ha : a ≠ "") : Join [a, b] = Clean (a ++ "/" ++ b) := by
  have hd := data_ne_nil_of_ne_empty a ha
  simp [Join, joinChars, hd, stringsJoin, Clean]

theorem noDouble_cons (c : Char) (out : List Char) (h : ¬ ['/', '/'] <:+: out)
    (hc : c ≠ '/' ∨ out.head? ≠ some '/') : ¬ ['/', '/'] <:+: c :: out := by
  rw [List.infix_cons_iff]
  rintro (hp | hi)
  · rw [List.cons_prefix_cons] at hp
    obtain ⟨h1, h2⟩ := hp
    rcases hc with hc | hc
    · exact hc h1.symm
    · cases out with
      | nil => simp at h2
      | cons d out =>
        rw [List.cons_prefix_cons] at h2
        exact hc (by simp [← h2.1])
  · exact h hi

theorem CleanInv.push (rooted : Bool) (out : List Char) (dotdot : Nat) (c : Char)
    (h : CleanInv rooted out dotdot) (hc : c ≠ '/') : CleanInv rooted (c :: out) dotdot := by
  obtain ⟨h1, h2, h3, _⟩ := h
  refine ⟨noDouble_cons c out h1 (Or.inl hc), by simp; omega, ?_, Or.inl (by simp [hc])⟩
  intro r hr hlen
  rw [List.suffix_cons_iff] at hr
  rcases hr with hr | hr
  · subst hr
    exact Or.inl (by simp [hc])
  · exact h3 r hr hlen

theorem CleanInv.pushSep (rooted : Bool) (out : List Char) (dotdot : Nat) (c : Char)
    (h : CleanInv rooted out dotdot) (hc : c ≠ '/') (ho : out.head? ≠ some '/') :
    CleanInv rooted (c :: '/' :: out) dotdot := by
  obtain ⟨h1, h2, h3, _⟩ := h
  refine ⟨noDouble_cons c _ (noDouble_cons '/' out h1 (Or.inr ho)) (Or.inl hc), by simp; omega,
    ?_, Or.inl (by simp [hc])⟩
  intro r hr hlen
  rw [List.suffix_cons_iff] at hr
  rcases hr with hr | hr
  · subst hr
    exact Or.inl (by simp [hc])
  · rw [List.suffix_cons_iff] at hr
    rcases hr with hr | hr
    · subst hr
      simp at hlen
      omega
    · exact h3 r hr hlen

theorem cleanBacktrack_spec (dotdot : Nat) (out : List Char) (h : dotdot < out.length) :
    cleanBacktrack dotdot out <:+ out ∧ dotdot ≤ (cleanBacktrack dotdot out).length ∧
      ((cleanBacktrack dotdot out).length = dotdot ∨
        '/' :: cleanBacktrack dotdot out <:+ out) := by
  induction out with
  | nil => simp at h
  | cons c out ih =>
    unfold cleanBacktrack
    split
    · rename_i hcond
      simp only [Bool.and_eq_true, decide_eq_true_eq, Bool.not_eq_true'] at hcond
      obtain ⟨i1, i2, i3⟩ := ih hcond.1
      refine ⟨i1.trans (List.suffix_cons c out), i2, ?_⟩
      rcases i3 with i3 | i3
      · exact Or.inl i3
      · exact Or.inr (i3.trans (List.suffix_cons c out))
    · rename_i hcond
      simp only [Bool.and_eq_true, decide_eq_true_eq, Bool.not_eq_true', not_and,
        Bool.not_eq_false] at hcond
      simp only [List.length_cons] at h
      refine ⟨List.suffix_cons c out, by omega, ?_⟩
      by_cases hl : dotdot < out.length
      · have := hcond hl
        simp only [isPathSeparator, beq_iff_eq] at this
        subst this
        exact Or.inr (List.suffix_refl _)
      · exact Or.inl (by omega)

theorem CleanInv.backtrack (rooted : Bool) (out : List Char) (dotdot : Nat)
    (h : CleanInv rooted out dotdot) (hl : dotdot < out.length) :
    CleanInv rooted (cleanBacktrack dotdot out) dotdot := by
  obtain ⟨h1, _, h3, _⟩ := h
  obtain ⟨b1, b2, b3⟩ := cleanBacktrack_spec dotdot out hl
  refine ⟨fun hi => h1 (hi.trans b1.isInfix), b2, fun r hr hlen => h3 r (hr.trans b1) hlen, ?_⟩
  rcases b3 with b3 | b3
  · exact h3 _ b1 b3
  · left
    intro hh
    apply h1
    cases hb : cleanBacktrack dotdot out with
    | nil => simp [hb] at hh
    | cons d t =>
      rw [hb] at hh b3
      simp only [List.head?_cons, Option.some.injEq] at hh
      subst hh
      exact (List.IsPrefix.isInfix ⟨t, rfl⟩).trans b3.isInfix

theorem CleanInv.pushDotDot (out : List Char) (dotdot : Nat)
    (h : CleanInv false out dotdot) :
    CleanInv false ('.' :: '.' :: (if out.length > 0 then '/' :: out else out))
      ('.' :: '.' :: (if out.length > 0 then '/' :: out else out)).length := by
  obtain ⟨h1, _, _, h4⟩ := h
  have ho : out.head? ≠ some '/' := by
    rcases h4 with h4 | h4
    · exact h4
    · simp at h4
  have hd : ('.' : Char) ≠ '/' := by decide
  have hin : ¬ ['/', '/'] <:+: (if out.length > 0 then '/' :: out else out) := by
    split
    · exact noDouble_cons '/' out h1 (Or.inr ho)
    · exact h1
  refine ⟨noDouble_cons _ _ (noDouble_cons _ _ hin (Or.inl hd)) (Or.inl hd), le_refl _, ?_,
    Or.inl (by simp)⟩
  intro r hr hlen
  rw [hr.eq_of_length hlen]
  exact Or.inl (by simp)

theorem cleanLoop_nil (rooted copying : Bool) (out : List Char) (dotdot : Nat) :
    cleanLoop rooted copying [] out dotdot = out := by
  cases copying <;> rfl

theorem cleanLoop_copying (rooted : Bool) (c : Char) (path out : List Char) (dotdot : Nat) :
    cleanLoop rooted true (c :: path) out dotdot =
      if isPathSeparator c then cleanLoop rooted false path out dotdot
      else cleanLoop rooted true path (c :: out) dotdot := rfl

theorem cleanLoop_single (rooted : Bool) (c : Char) (out : List Char) (dotdot : Nat) :
    cleanLoop rooted false [c] out dotdot =
      if isPathSeparator c then out
      else if c == '.' && atElementEnd [] then out
      else c :: (if (rooted && out.length != 1) || (!rooted && out.length != 0)
        then '/' :: out else out) := rfl

theorem cleanLoop_element (rooted : Bool) (c d : Char) (rest out : List Char) (dotdot : Nat) :
    cleanLoop rooted false (c :: d :: rest) out dotdot =
      if isPathSeparator c then cleanLoop rooted false (d :: rest) out dotdot
      else if c == '.' && atElementEnd (d :: rest) then
        cleanLoop rooted false (d :: rest) out dotdot
      else if c == '.' && d == '.' && atElementEnd rest then
        if out.length > dotdot then
          cleanLoop rooted false rest (cleanBacktrack dotdot out) dotdot
        else if !rooted then
          cleanLoop rooted false rest
            ('.' :: '.' :: (if out.length > 0 then '/' :: out else out))
            ('.' :: '.' :: (if out.length > 0 then '/' :: out else out)).length
        else cleanLoop rooted false rest out dotdot
      else cleanLoop rooted true (d :: rest)
        (c :: (if (rooted && out.length != 1) || (!rooted && out.length != 0)
          then '/' :: out else out)) dotdot := rfl

theorem cleanLoop_noDouble (rooted : Bool) (n : Nat) :
    ∀ (path : List Char) (copying : Bool) (out : List Char) (dotdot : Nat),
      path.length ≤ n → CleanInv rooted out dotdot →
      ¬ ['/', '/'] <:+: cleanLoop rooted copying path out dotdot := by
  induction n with
  | zero =>
    intro path copying out dotdot hn h
    have : path = [] := List.length_eq_zero.mp (by omega)
    subst this
    rw [cleanLoop_nil]
    exact h.1
  | succ n ih =>
    intro path copying out dotdot hn h
    cases path with
    | nil =>
      rw [cleanLoop_nil]
      exact h.1
    | cons c path =>
      simp only [List.length_cons] at hn
      have hp : path.length ≤ n := by omega
      cases copying with
      | true =>
        rw [cleanLoop_copying]
        split
        · exact ih path false out dotdot hp h
        · rename_i hc
          refine ih path true (c :: out) dotdot hp (h.push rooted out dotdot c ?_)
          simpa [isPathSeparator] using hc
      | false =>
        by_cases hc : isPathSeparator c = true
        · cases path with
          | nil =>
            rw [cleanLoop_single, if_pos hc]
            exact h.1
          | cons d rest =>
            rw [cleanLoop_element, if_pos hc]
            exact ih (d :: rest) false out dotdot hp h
        · have hc' : c ≠ '/' := by simpa [isPathSeparator] using hc
          have hout1 : CleanInv rooted
              (c :: (if (rooted && out.length != 1) || (!rooted && out.length != 0)
                then '/' :: out else out)) dotdot := by
            split
            · rename_i hcond
              apply h.pushSep rooted out dotdot c hc'
              rcases h.2.2.2 with h4 | ⟨h4, h5⟩
              · exact h4
              · subst h4 h5
                simp at hcond
            · exact h.push rooted out dotdot c hc'
          cases path with
          | nil =>
            rw [cleanLoop_single, if_neg hc]
            split
            · exact h.1
            · exact hout1.1
          | cons d rest =>
            simp only [List.length_cons] at hp
            have hr : rest.length ≤ n := by omega
            rw [cleanLoop_element, if_neg hc]
            split
            · exact ih (d :: rest) false out dotdot (by simp; omega) h
            · split
              · split
                · rename_i hl
                  exact ih rest false _ dotdot hr
                    (h.backtrack rooted out dotdot (by simpa using hl))
                · split
                  · rename_i hroot
                    have : rooted = false := by simpa using hroot
                    subst this
                    exact ih rest false _ _ hr (CleanInv.pushDotDot out dotdot h)
                  · exact ih rest false out dotdot hr h
              · exact ih (d :: rest) true _ dotdot (by simp; omega) hout1

theorem cleanChars_noDouble (path : List Char) : ¬ ['/', '/'] <:+: cleanChars path := by
  have hdot : ¬ ['/', '/'] <:+: ['.'] := fun h => by simpa using h.length_le
  have hfin : ∀ out : List Char, ¬ ['/', '/'] <:+: out →
      ¬ ['/', '/'] <:+: (if out.length == 0 then ['.'] else out.reverse) := by
    intro out ho
    split
    · exact hdot
    · intro hi
      apply ho
      rw [← List.reverse_infix]
      simpa using hi
  unfold cleanChars
  cases path with
  | nil => exact hdot
  | cons c rest =>
    simp only
    apply hfin
    split
    · apply cleanLoop_noDouble true rest.length rest false ['/'] 1 (le_refl _)
      refine ⟨fun h => by simpa using h.length_le, le_refl _, ?_, Or.inr ⟨rfl, rfl⟩⟩
      intro r hr hlen
      rw [hr.eq_of_length (by simpa using hlen)]
      exact Or.inr ⟨rfl, rfl⟩
    · apply cleanLoop_noDouble false (c :: rest).length (c :: rest) false [] 0 (le_refl _)
      refine ⟨fun h => by simpa using h.length_le, le_refl _, ?_, Or.inl (by simp)⟩
      intro r hr hlen
      rw [hr.eq_of_length (by simpa using hlen)]
      exact Or.inl (by simp)

theorem Clean_noDouble (path : String) : ¬ "//".data <:+: (Clean path).data :=
  cleanChars_noDouble path.data

/-- C2: with both `mapFrom` and `mapTo` set, `mapPath p` is the path join of
`mapTo` and the remainder of `p`: what follows `mapFrom` when `p` starts with
it, `p` itself otherwise; the join is the cleaned `mapTo/remainder`, and the
result has no two separators in a row. -/
theorem mapPath_mapped (globals : Globals) (p : String)
    (hf : globals.mapFrom ≠ "") (ht : globals.mapTo ≠ "") :
    (∀ r, p = globals.mapFrom ++ r → mapPath globals p = Join [globals.mapTo, r]) ∧
    ((∀ r, p ≠ globals.mapFrom ++ r) → mapPath globals p = Join [globals.mapTo, p]) ∧
    (∀ r, Join [globals.mapTo, r] = Clean (globals.mapTo ++ "/" ++ r)) ∧
    ¬ "//".data <:+: (mapPath globals p).data := by
  have hne : ¬ (globals.mapFrom = "" ∨ globals.mapTo = "") := by
    rintro (h | h)
    · exact hf h
    · exact ht h
  refine ⟨?_, ?_, fun r => Join_pair _ r ht, ?_⟩
  rotate_right
  · unfold mapPath
    rw [if_neg hne, Join_pair _ _ ht]
    exact Clean_noDouble _
  · intro r hr
    unfold mapPath
    rw [if_neg hne, hr, TrimPrefix_append]
  · intro hr
    unfold mapPath
    rw [if_neg hne, TrimPrefix_of_not_append p _ hr]

/-- C2 on the example of the specification: `/a/b/c` with `/a` mapped to `/x`
is `/x/b/c`. -/
theorem mapPath_mapped_witness :
    mapPath ⟨"/a", "/x", "/out"⟩ "/a/b/c" = "/x/b/c" :=
  ((mapPath_mapped ⟨"/a", "/x", "/out"⟩ "/a/b/c" (by decide) (by decide)).1 "/b/c"
    (by decide)).trans (by decide)

theorem extLoop_walk (l rest acc : List Char) (h : ∀ c ∈ l, c ≠ '.' ∧ c ≠ '/') :
    extLoop (l ++ rest) acc = extLoop rest (l.reverse ++ acc) := by
  induction l generalizing acc with
  | nil => rfl
  | cons c l ih =>
    have hc := h c (List.mem_cons_self c l)
    have hl : ∀ d ∈ l, d ≠ '.' ∧ d ≠ '/' := fun d hd => h d (List.mem_cons_of_mem c hd)
    simp [extLoop, isPathSeparator, hc.1, hc.2, ih (c :: acc) hl]

theorem extLoop_nodot (l rest acc : List Char) (h : '.' ∉ l) :
    extLoop (l ++ rest) acc = [] ∨ extLoop (l ++ rest) acc = extLoop rest (l.reverse ++ acc) := by
  induction l generalizing acc with
  | nil => exact Or.inr rfl
  | cons c l ih =>
    have hc : c ≠ '.' := fun e => h (e ▸ List.mem_cons_self c l)
    have hl : '.' ∉ l := fun hd => h (List.mem_cons_of_mem c hd)
    by_cases hs : c = '/'
    · left
      simp [extLoop, isPathSeparator, hs]
    · rcases ih (c :: acc) hl with h1 | h1
      · left
        simpa [extLoop, isPathSeparator, hc, hs] using h1
      · right
        simpa [extLoop, isPathSeparator, hc, hs] using h1

theorem Ext_of_last_dot (path : String) (pre e : List Char) (hp : path.data = pre ++ '.' :: e)
    (hdot : '.' ∉ e) (hsep : '/' ∉ e) : Ext path = ⟨'.' :: e⟩ := by
  unfold Ext
  congr 1
  have h : ∀ c ∈ e.reverse, c ≠ '.' ∧ c ≠ '/' := by
    intro c hc
    rw [List.mem_reverse] at hc
    exact ⟨fun e1 => hdot (e1 ▸ hc), fun e1 => hsep (e1 ▸ hc)⟩
  rw [hp, List.reverse_append, List.reverse_cons, List.append_assoc,
    extLoop_walk e.reverse _ [] h]
  simp [extLoop, isPathSeparator]

theorem Ext_of_no_dot (path : String) (pre e : List Char)
    (hp : path.data = e ∨ path.data = pre ++ '/' :: e) (hdot : '.' ∉ e) : Ext path = "" := by
  unfold Ext
  apply String.ext
  show extLoop path.data.reverse [] = []
  have hr : '.' ∉ e.reverse := by simpa using hdot
  rcases hp with hp | hp
  · rw [hp]
    rcases extLoop_nodot e.reverse [] [] hr with h1 | h1
    · simpa using h1
    · simpa [extLoop] using h1
  · rw [hp, List.reverse_append, List.reverse_cons, List.append_assoc]
    rcases extLoop_nodot e.reverse ([] ++ '/' :: pre.reverse) [] hr with h1 | h1
    · simpa using h1
    · simpa [extLoop, isPathSeparator] using h1

theorem extLoop_cases (rev acc : List Char) :
    (extLoop rev acc = [] ∧
      ('.' ∉ rev ∨ ∃ l rest, rev = l ++ '/' :: rest ∧ '.' ∉ l)) ∨
    ∃ l rest, rev = l ++ '.' :: rest ∧ '.' ∉ l ∧ '/' ∉ l ∧
      extLoop rev acc = '.' :: (l.reverse ++ acc) := by
  induction rev generalizing acc with
  | nil => exact Or.inl ⟨rfl, Or.inl (List.not_mem_nil _)⟩
  | cons c rev ih =>
    by_cases hs : c = '/'
    · refine Or.inl ⟨by simp [extLoop, isPathSeparator, hs], Or.inr ⟨[], rev, by simp [hs], ?_⟩⟩
      exact List.not_mem_nil _
    · by_cases hd : c = '.'
      · exact Or.inr ⟨[], rev, by simp [hd], List.not_mem_nil _, List.not_mem_nil _,
          by simp [extLoop, isPathSeparator, hd]⟩
      · have hd2 : ¬ '.' = c := fun e => hd e.symm
        have hs2 : ¬ '/' = c := fun e => hs e.symm
        rcases ih (c :: acc) with ⟨h1, h2⟩ | ⟨l, rest, h1, h2, h3, h4⟩
        · refine Or.inl ⟨by simpa [extLoop, isPathSeparator, hs, hd] using h1, ?_⟩
          rcases h2 with h2 | ⟨l, rest, h2, h3⟩
          · exact Or.inl (by simp [hd2, h2])
          · exact Or.inr ⟨c :: l, rest, by simp [h2], by simp [hd2, h3]⟩
        · exact Or.inr ⟨c :: l, rest, by simp [h1], by simp [hd2, h2], by simp [hs2, h3],
            by simp [extLoop, isPathSeparator, hs, hd, h4]⟩

theorem Ext_cases (path : String) :
    (Ext path = "" ∧
      ('.' ∉ path.data ∨ ∃ pre e, path.data = pre ++ '/' :: e ∧ '.' ∉ e)) ∨
    ∃ pre e, path.data = pre ++ '.' :: e ∧ '.' ∉ e ∧ '/' ∉ e ∧ Ext path = ⟨'.' :: e⟩ := by
  rcases extLoop_cases path.data.reverse [] with ⟨h1, h2⟩ | ⟨l, rest, h1, h2, h3, h4⟩
  · refine Or.inl ⟨?_, ?_⟩
    · unfold Ext
      rw [h1]
    · rcases h2 with h2 | ⟨l, rest, h2, h3⟩
      · exact Or.inl (by simpa using h2)
      · refine Or.inr ⟨rest.reverse, l.reverse, ?_, by simpa using h3⟩
        have := congrArg List.reverse h2
        simpa using this
  · refine Or.inr ⟨rest.reverse, l.reverse, ?_, by simpa using h2, by simpa using h3, ?_⟩
    · have := congrArg List.reverse h1
      simpa using this
    · unfold Ext
      rw [h4]
      simp

/-- C4, as the program has it: the name joined onto the destination directory is
`sceneName` followed by `filepath.Ext` of the source path, which is the suffix
from the last dot of the final path element (nothing after that dot is a dot or
a separator) and empty when the final element has no dot, one of the two
being always the case; with an empty `sceneName` the name is that extension
alone. -/
theorem link_name {σ : Type} (env : Env σ) (globals : Globals) (title : String)
    (ep : EpisodeFile) (eps : List EpisodeFile) (w : σ) :
    (∀ w1, env.MkdirAll (dstOf globals title ep) 0o755 w = (w1, none) →
      ∃ err, (linkLoop env globals title (ep :: eps) w).trace.get? 1 =
        some (.link (mapPath globals ep.Path)
          (Join [dstOf globals title ep, ep.SceneName ++ Ext ep.Path]) err)) ∧
    (∀ pre e, ep.Path.data = pre ++ '.' :: e → '.' ∉ e → '/' ∉ e → Ext ep.Path = ⟨'.' :: e⟩) ∧
    (∀ pre e, ep.Path.data = pre ++ '/' :: e → '.' ∉ e → Ext ep.Path = "") ∧
    ('.' ∉ ep.Path.data → Ext ep.Path = "") ∧
    ((Ext ep.Path = "" ∧
        ('.' ∉ ep.Path.data ∨ ∃ pre e, ep.Path.data = pre ++ '/' :: e ∧ '.' ∉ e)) ∨
      ∃ pre e, ep.Path.data = pre ++ '.' :: e ∧ '.' ∉ e ∧ '/' ∉ e ∧
        Ext ep.Path = ⟨'.' :: e⟩) ∧
    (ep.SceneName = "" → ep.SceneName ++ Ext ep.Path = Ext ep.Path) := by
  refine ⟨?_, ?_, ?_, ?_, Ext_cases ep.Path, ?_⟩
  · intro w1 hw
    unfold linkLoop
    simp only [dstOf] at hw
    simp only [hw, dstOf]
    split
    · exact ⟨_, rfl⟩
    · exact ⟨_, rfl⟩
  · intro pre e hp hdot hsep
    exact Ext_of_last_dot ep.Path pre e hp hdot hsep
  · intro pre e hp hdot
    exact Ext_of_no_dot ep.Path pre e (Or.inr hp) hdot
  · intro hdot
    exact Ext_of_no_dot ep.Path [] ep.Path.data (Or.inl rfl) hdot
  · intro hs
    rw [hs]
    apply String.ext
    simp

/-- C4 on the example of the specification: scene name
`Show.S01E01.Episode.Title` and a source path ending in `file.mkv`. -/
theorem link_name_witness :
    ∃ err, (linkLoop (demoEnv (fun _ => "") [] []) ⟨"", "", "/out"⟩ "Show"
        [⟨1, "/tv/show/file.mkv", "Show.S01E01.Episode.Title"⟩] ⟨[], []⟩).trace.get? 1 =
      some (.link "/tv/show/file.mkv" "/out/Show.S01/Show.S01E01.Episode.Title.mkv" err) :=
  (link_name (demoEnv (fun _ => "") [] []) ⟨"", "", "/out"⟩ "Show"
    ⟨1, "/tv/show/file.mkv", "Show.S01E01.Episode.Title"⟩ [] ⟨[], []⟩).1 _ rfl

/-- C4 as worded fails where the last dot of the path is in a directory name:
for `/tv/show.2019/ep1` the suffix from the last dot is `.2019/ep1`, the
program takes the empty extension and links `/out/Show.S01/Show.S01E01`. -/
theorem link_name_counterexample :
    suffixFromLastDot "/tv/show.2019/ep1" = ".2019/ep1" ∧
    Ext "/tv/show.2019/ep1" = "" ∧
    (linkLoop (demoEnv (fun _ => "") [] []) ⟨"", "", "/out"⟩ "Show"
        [⟨1, "/tv/show.2019/ep1", "Show.S01E01"⟩] ⟨[], ["/tv/show.2019/ep1"]⟩).trace =
      [.mkdirAll "/out/Show.S01" 0o755 none,
       .link "/tv/show.2019/ep1" "/out/Show.S01/Show.S01E01" none,
       .print "sonarr: created link /out/Show.S01/Show.S01E01\n"] ∧
    "/out/Show.S01/Show.S01E01" ≠
      Join ["/out/Show.S01", "Show.S01E01" ++ suffixFromLastDot "/tv/show.2019/ep1"] := by
  decide

@[simp] theorem Run.after_outcome {σ : Type} (evs : List Event) (r : Run σ) :
    (r.after evs).outcome = r.outcome := rfl

@[simp] theorem Run.after_state {σ : Type} (evs : List Event) (r : Run σ) :
    (r.after evs).state = r.state := rfl

@[simp] theorem Run.after_trace {σ : Type} (evs : List Event) (r : Run σ) :
    (r.after evs).trace = evs ++ r.trace := rfl

theorem Run.ext_fields {σ : Type} (r q : Run σ) (h1 : r.state = q.state)
    (h2 : r.trace = q.trace) (h3 : r.outcome = q.outcome) : r = q := by
  cases r
  cases q
  simp_all

/-- One iteration of the loop in which both steps succeed hands over to the
rest of the loop. -/
theorem linkLoop_cons_ok {σ : Type} (env : Env σ) (globals : Globals) (title : String)
    (ep : EpisodeFile) (eps : List EpisodeFile) (w w1 w2 : σ)
    (h1 : env.MkdirAll (dstOf globals title ep) 0o755 w = (w1, none))
    (h2 : env.Link (mapPath globals ep.Path) (linkOf globals title ep) w1 = (w2, none)) :
    linkLoop env globals title (ep :: eps) w =
      (linkLoop env globals title eps w2).after (okStep globals title ep) := by
  simp only [dstOf, linkOf] at h1 h2
  rw [linkLoop]
  simp only [h1, h2]
  rfl

/-- An iteration whose directory creation fails ends the loop. -/
theorem linkLoop_cons_mkdir {σ : Type} (env : Env σ) (globals : Globals) (title : String)
    (ep : EpisodeFile) (eps : List EpisodeFile) (w w1 : σ) (err : String)
    (h1 : env.MkdirAll (dstOf globals title ep) 0o755 w = (w1, some err)) :
    linkLoop env globals title (ep :: eps) w =
      ⟨w1, [.mkdirAll (dstOf globals title ep) 0o755 (some err)],
        .returned (some ("sonarr: unable to create destination: " ++ err))⟩ := by
  simp only [dstOf] at h1
  rw [linkLoop]
  simp only [h1]
  rfl

/-- An iteration whose link creation fails ends the loop. -/
theorem linkLoop_cons_link {σ : Type} (env : Env σ) (globals : Globals) (title : String)
    (ep : EpisodeFile) (eps : List EpisodeFile) (w w1 w2 : σ) (err : String)
    (h1 : env.MkdirAll (dstOf globals title ep) 0o755 w = (w1, none))
    (h2 : env.Link (mapPath globals ep.Path) (linkOf globals title ep) w1 = (w2, some err)) :
    linkLoop env globals title (ep :: eps) w =
      ⟨w2, [.mkdirAll (dstOf globals title ep) 0o755 none,
          .link (mapPath globals ep.Path) (linkOf globals title ep) (some err)],
        .returned (some ("sonarr: unable to create link at " ++ linkOf globals title ep
          ++ ": " ++ err))⟩ := by
  simp only [dstOf, linkOf] at h1 h2
  rw [linkLoop]
  simp only [h1, h2]
  rfl

/-- A run of the loop that returns no error made exactly the calls of the
all-success plan. -/
theorem linkLoop_ok_trace {σ : Type} (env : Env σ) (globals : Globals) (title : String)
    (eps : List EpisodeFile) (w : σ)
    (h : (linkLoop env globals title eps w).outcome = .returned none) :
    (linkLoop env globals title eps w).trace = okPlan globals title eps := by
  induction eps generalizing w with
  | nil => rfl
  | cons ep eps ih =>
    rcases h1 : env.MkdirAll (dstOf globals title ep) 0o755 w with ⟨w1, _ | err⟩
    · rcases h2 : env.Link (mapPath globals ep.Path) (linkOf globals title ep) w1
        with ⟨w2, _ | err⟩
      · rw [linkLoop_cons_ok env globals title ep eps w w1 w2 h1 h2] at h ⊢
        simp only [Run.after_outcome] at h
        simp only [Run.after_trace, okPlan, ih w2 h]
      · rw [linkLoop_cons_link env globals title ep eps w w1 w2 err h1 h2] at h
        simp at h
    · rw [linkLoop_cons_mkdir env globals title ep eps w w1 err h1] at h
      simp at h

/-- The loop over `pre ++ rest`, when the part over `pre` returns no error, is
that part followed by the loop over `rest` from the state it reached. -/
theorem linkLoop_append {σ : Type} (env : Env σ) (globals : Globals) (title : String)
    (pre rest : List EpisodeFile) (w : σ)
    (h : (linkLoop env globals title pre w).outcome = .returned none) :
    linkLoop env globals title (pre ++ rest) w =
      (linkLoop env globals title rest (linkLoop env globals title pre w).state).after
        (linkLoop env globals title pre w).trace := by
  induction pre generalizing w with
  | nil =>
    apply Run.ext_fields <;> simp [linkLoop]
  | cons ep pre ih =>
    rcases h1 : env.MkdirAll (dstOf globals title ep) 0o755 w with ⟨w1, _ | err⟩
    · rcases h2 : env.Link (mapPath globals ep.Path) (linkOf globals title ep) w1
        with ⟨w2, _ | err⟩
      · rw [List.cons_append, linkLoop_cons_ok env globals title ep _ w w1 w2 h1 h2,
          linkLoop_cons_ok env globals title ep pre w w1 w2 h1 h2] at *
        simp only [Run.after_outcome] at h
        rw [ih w2 h]
        apply Run.ext_fields <;> simp
      · rw [linkLoop_cons_link env globals title ep pre w w1 w2 err h1 h2] at h
        simp at h
    · rw [linkLoop_cons_mkdir env globals title ep pre w w1 err h1] at h
      simp at h

/-- A run of the loop none of whose filesystem calls failed returns no error. -/
theorem linkLoop_no_fail {σ : Type} (env : Env σ) (globals : Globals) (title : String)
    (eps : List EpisodeFile) (w : σ)
    (h : ∀ e ∈ (linkLoop env globals title eps w).trace, e.failed = false) :
    (linkLoop env globals title eps w).outcome = .returned none := by
  induction eps generalizing w with
  | nil => rfl
  | cons ep eps ih =>
    rcases h1 : env.MkdirAll (dstOf globals title ep) 0o755 w with ⟨w1, _ | err⟩
    · rcases h2 : env.Link (mapPath globals ep.Path) (linkOf globals title ep) w1
        with ⟨w2, _ | err⟩
      · rw [linkLoop_cons_ok env globals title ep eps w w1 w2 h1 h2] at h ⊢
        simp only [Run.after_outcome]
        apply ih w2
        intro e he
        exact h e (by simp [he])
      · rw [linkLoop_cons_link env globals title ep eps w w1 w2 err h1 h2] at h
        have := h (.link (mapPath globals ep.Path) (linkOf globals title ep) (some err))
          (by simp)
        simp [Event.failed] at this
    · rw [linkLoop_cons_mkdir env globals title ep eps w w1 err h1] at h
      have := h (.mkdirAll (dstOf globals title ep) 0o755 (some err)) (by simp)
      simp [Event.failed] at this

theorem okPlan_linked (globals : Globals) (title : String) (eps : List EpisodeFile) :
    ((okPlan globals title eps).filter Event.linked).length = eps.length := by
  induction eps with
  | nil => rfl
  | cons ep eps ih =>
    simp only [okPlan, List.filter_append, List.length_append, ih, List.length_cons]
    simp [okStep, Event.linked, List.filter]
    omega

/-- With the configuration present and both lookups successful, `Exec` is the
two lookups followed by the loop over the episode files. -/
theorem Exec_eq_linkLoop {σ : Type} (env : Env σ) (globals : Globals) (s : sonarrCmd) (w : σ)
    (series0 : Series) (rest : List Series) (eps : List EpisodeFile) (w1 w2 : σ)
    (hurl : cmpOr s.url (env.getenv "SONARR_URL") ≠ "")
    (hkey : cmpOr s.key (env.getenv "SONARR_KEY") ≠ "")
    (hs : env.GetSeries s.series w = (w1, .ok (series0 :: rest)))
    (he : env.GetSeriesEpisodeFiles series0.ID w1 = (w2, .ok eps)) :
    Exec env globals s w =
      (linkLoop env globals (ReplaceAll series0.Title " " ".") eps w2).after
        [.getSeries s.series, .getSeriesEpisodeFiles series0.ID] := by
  simp [Exec, require, hurl, hkey, hs, he]

/-- The loop stops at the first failing step: its calls are the successful
calls for the episodes before the failing one followed by the failing step, and
the episodes after it play no part. -/
theorem linkLoop_fail_fast {σ : Type} (env : Env σ) (globals : Globals) (title : String)
    (pre : List EpisodeFile) (ep : EpisodeFile) (post : List EpisodeFile) (w : σ)
    (hpre : (linkLoop env globals title pre w).outcome = .returned none)
    (hep : (env.MkdirAll (dstOf globals title ep) 0o755
          (linkLoop env globals title pre w).state).2 ≠ none ∨
        (env.Link (mapPath globals ep.Path) (linkOf globals title ep)
          (env.MkdirAll (dstOf globals title ep) 0o755
            (linkLoop env globals title pre w).state).1).2 ≠ none) :
    ∃ failing msg,
      (linkLoop env globals title (pre ++ ep :: post) w).outcome = .returned (some msg) ∧
      (linkLoop env globals title (pre ++ ep :: post) w).trace =
        okPlan globals title pre ++ failing ∧
      ((∃ e w1, env.MkdirAll (dstOf globals title ep) 0o755
            (linkLoop env globals title pre w).state = (w1, some e) ∧
          failing = [.mkdirAll (dstOf globals title ep) 0o755 (some e)] ∧
          (linkLoop env globals title (pre ++ ep :: post) w).state = w1) ∨
       (∃ e w1 w2, env.MkdirAll (dstOf globals title ep) 0o755
            (linkLoop env globals title pre w).state = (w1, none) ∧
          env.Link (mapPath globals ep.Path) (linkOf globals title ep) w1 = (w2, some e) ∧
          failing = [.mkdirAll (dstOf globals title ep) 0o755 none,
            .link (mapPath globals ep.Path) (linkOf globals title ep) (some e)] ∧
          (linkLoop env globals title (pre ++ ep :: post) w).state = w2)) ∧
      linkLoop env globals title (pre ++ ep :: post) w =
        linkLoop env globals title (pre ++ [ep]) w := by
  rw [linkLoop_append env globals title pre (ep :: post) w hpre,
    linkLoop_append env globals title pre [ep] w hpre,
    linkLoop_ok_trace env globals title pre w hpre]
  rcases h1 : env.MkdirAll (dstOf globals title ep) 0o755
    (linkLoop env globals title pre w).state with ⟨w1, _ | err⟩
  · rcases h2 : env.Link (mapPath globals ep.Path) (linkOf globals title ep) w1
      with ⟨w2, _ | err⟩
    · simp [h1, h2] at hep
    · rw [linkLoop_cons_link env globals title ep post _ w1 w2 err h1 h2,
        linkLoop_cons_link env globals title ep [] _ w1 w2 err h1 h2]
      exact ⟨_, _, rfl, rfl, Or.inr ⟨err, w1, w2, rfl, h2, rfl, rfl⟩, rfl⟩
  · rw [linkLoop_cons_mkdir env globals title ep post _ w1 err h1,
      linkLoop_cons_mkdir env globals title ep [] _ w1 err h1]
    exact ⟨_, _, rfl, rfl, Or.inl ⟨err, w1, rfl, rfl, rfl⟩, rfl⟩

/-- C5: the link loop of `Exec` is fail-fast.  Let the configuration be present
and both lookups succeed, the episode files being `pre ++ ep :: post`.  When
the loop over `pre` returns no error and, in the state then reached, the
directory creation for `ep` fails or its link creation fails, then `Exec`
returns an error; its calls are the two lookups, the successful calls for the
episodes of `pre` in order (one link each, so exactly as many links as `pre`
has episodes) and then the failing step, which is the last call; the final
state is the one the failing call left (nothing is undone); and the loop does
the same whatever `post` is. -/
theorem fail_fast {σ : Type} (env : Env σ) (globals : Globals) (s : sonarrCmd) (w : σ)
    (series0 : Series) (rest : List Series) (w1 w2 : σ)
    (pre : List EpisodeFile) (ep : EpisodeFile) (post : List EpisodeFile)
    (hurl : cmpOr s.url (env.getenv "SONARR_URL") ≠ "")
    (hkey : cmpOr s.key (env.getenv "SONARR_KEY") ≠ "")
    (hs : env.GetSeries s.series w = (w1, .ok (series0 :: rest)))
    (he : env.GetSeriesEpisodeFiles series0.ID w1 = (w2, .ok (pre ++ ep :: post)))
    (hpre : (linkLoop env globals (ReplaceAll series0.Title " " ".") pre w2).outcome =
      .returned none)
    (hep : (env.MkdirAll (dstOf globals (ReplaceAll series0.Title " " ".") ep) 0o755
          (linkLoop env globals (ReplaceAll series0.Title " " ".") pre w2).state).2 ≠ none ∨
        (env.Link (mapPath globals ep.Path)
          (linkOf globals (ReplaceAll series0.Title " " ".") ep)
          (env.MkdirAll (dstOf globals (ReplaceAll series0.Title " " ".") ep) 0o755
            (linkLoop env globals (ReplaceAll series0.Title " " ".") pre w2).state).1).2
          ≠ none) :
    ∃ failing msg,
      (Exec env globals s w).outcome = .returned (some msg) ∧
      (Exec env globals s w).trace =
        [.getSeries s.series, .getSeriesEpisodeFiles series0.ID] ++
          okPlan globals (ReplaceAll series0.Title " " ".") pre ++ failing ∧
      ((∃ e v1, env.MkdirAll (dstOf globals (ReplaceAll series0.Title " " ".") ep) 0o755
            (linkLoop env globals (ReplaceAll series0.Title " " ".") pre w2).state =
              (v1, some e) ∧
          failing = [.mkdirAll (dstOf globals (ReplaceAll series0.Title " " ".") ep) 0o755
            (some e)] ∧
          (Exec env globals s w).state = v1) ∨
       (∃ e v1 v2, env.MkdirAll (dstOf globals (ReplaceAll series0.Title " " ".") ep) 0o755
            (linkLoop env globals (ReplaceAll series0.Title " " ".") pre w2).state =
              (v1, none) ∧
          env.Link (mapPath globals ep.Path)
            (linkOf globals (ReplaceAll series0.Title " " ".") ep) v1 = (v2, some e) ∧
          failing = [.mkdirAll (dstOf globals (ReplaceAll series0.Title " " ".") ep) 0o755 none,
            .link (mapPath globals ep.Path)
              (linkOf globals (ReplaceAll series0.Title " " ".") ep) (some e)] ∧
          (Exec env globals s w).state = v2)) ∧
      ((Exec env globals s w).trace.filter Event.linked).length = pre.length ∧
      linkLoop env globals (ReplaceAll series0.Title " " ".") (pre ++ ep :: post) w2 =
        linkLoop env globals (ReplaceAll series0.Title " " ".") (pre ++ [ep]) w2 := by
  have hl := okPlan_linked globals (ReplaceAll series0.Title " " ".") pre
  obtain ⟨failing, msg, h1, h2, h3, h4⟩ :=
    linkLoop_fail_fast env globals (ReplaceAll series0.Title " " ".") pre ep post w2 hpre hep
  rw [Exec_eq_linkLoop env globals s w series0 rest _ w1 w2 hurl hkey hs he]
  refine ⟨failing, msg, h1, ?_, ?_, ?_, h4⟩
  · simp [h2]
  · simpa using h3
  · rcases h3 with ⟨e, v1, _, hf, _⟩ | ⟨e, v1, v2, _, _, hf, _⟩
    · simp [h2, hf, List.filter_append, hl, Event.linked, List.filter]
    · simp [h2, hf, List.filter_append, hl, Event.linked, List.filter]

/-- C5 on three episode files of which the second cannot be linked: `Exec`
returns an error, one link was made, the third episode is never touched, and
the disk holds the first link only. -/
theorem fail_fast_witness :
    (∃ msg, (Exec (demoEnv (fun _ => "") [⟨42, "Show"⟩] demoEpisodes) ⟨"", "", "/out"⟩
      ⟨"http://sonarr:8989", "key", 42⟩ demoDisk).outcome = .returned (some msg)) ∧
    ((Exec (demoEnv (fun _ => "") [⟨42, "Show"⟩] demoEpisodes) ⟨"", "", "/out"⟩
      ⟨"http://sonarr:8989", "key", 42⟩ demoDisk).trace.filter Event.linked).length = 1 ∧
    (Exec (demoEnv (fun _ => "") [⟨42, "Show"⟩] demoEpisodes) ⟨"", "", "/out"⟩
      ⟨"http://sonarr:8989", "key", 42⟩ demoDisk).state.files =
        ["/tv/show/a.mkv", "/tv/show/c.mkv", "/out/Show.S01/Show.S01E01.mkv"] ∧
    (Exec (demoEnv (fun _ => "") [⟨42, "Show"⟩] demoEpisodes) ⟨"", "", "/out"⟩
      ⟨"http://sonarr:8989", "key", 42⟩ demoDisk).trace =
        [.getSeries 42, .getSeriesEpisodeFiles 42,
         .mkdirAll "/out/Show.S01" 0o755 none,
         .link "/tv/show/a.mkv" "/out/Show.S01/Show.S01E01.mkv" none,
         .print "sonarr: created link /out/Show.S01/Show.S01E01.mkv\n",
         .mkdirAll "/out/Show.S01" 0o755 none,
         .link "/tv/show/b.mkv" "/out/Show.S01/Show.S01E02.mkv"
           (some "link /tv/show/b.mkv /out/Show.S01/Show.S01E02.mkv: no such file or directory")] := by
  obtain ⟨_, msg, h1, _, _, h4, _⟩ :=
    fail_fast (demoEnv (fun _ => "") [⟨42, "Show"⟩] demoEpisodes) ⟨"", "", "/out"⟩
      ⟨"http://sonarr:8989", "key", 42⟩ demoDisk ⟨42, "Show"⟩ [] demoDisk demoDisk
      [⟨1, "/tv/show/a.mkv", "Show.S01E01"⟩] ⟨1, "/tv/show/b.mkv", "Show.S01E02"⟩
      [⟨2, "/tv/show/c.mkv", "Show.S02E01"⟩] (by decide) (by decide) rfl rfl
      (by decide) (by decide)
  exact ⟨⟨msg, h1⟩, h4, by decide, by decide⟩

theorem cmpOr_eq (a b : String) : cmpOr a b = if a ≠ "" then a else b := by
  unfold cmpOr
  by_cases ha : a = ""
  · by_cases hb : b = ""
    · simp [ha, hb]
    · simp [ha, hb]
  · simp [ha]

/-- C6: with the URL taken from the flag `-sonarr-url` when it is set and from
`SONARR_URL` otherwise, and the key likewise from `-sonarr-key` and
`SONARR_KEY`: when either is empty, `Exec` ends the process with exit code 2,
has only printed a diagnostic, made no service call and no filesystem call, and
left the world as it was. -/
theorem missing_configuration {σ : Type} (env : Env σ) (globals : Globals) (s : sonarrCmd)
    (w : σ)
    (h : (if s.url ≠ "" then s.url else env.getenv "SONARR_URL") = "" ∨
      (if s.key ≠ "" then s.key else env.getenv "SONARR_KEY") = "") :
    (Exec env globals s w).outcome = .exit 2 ∧
    (Exec env globals s w).state = w ∧
    (∃ msg, (Exec env globals s w).trace = [.print msg]) ∧
    (∀ e ∈ (Exec env globals s w).trace, e.external = false) := by
  rw [← cmpOr_eq, ← cmpOr_eq] at h
  by_cases hu : cmpOr s.url (env.getenv "SONARR_URL") = ""
  · simp [Exec, require, hu, Event.external]
  · have hk : cmpOr s.key (env.getenv "SONARR_KEY") = "" := by
      rcases h with h | h
      · exact absurd h hu
      · exact h
    simp [Exec, require, hu, hk, Event.external]

/-- C6 with the URL given by the flag and no key anywhere. -/
theorem missing_configuration_witness :
    (Exec (demoEnv (fun _ => "") [⟨42, "The Wire"⟩] []) ⟨"", "", "/out"⟩
      ⟨"http://sonarr:8989", "", 42⟩ demoDisk).outcome = .exit 2 ∧
    (Exec (demoEnv (fun _ => "") [⟨42, "The Wire"⟩] []) ⟨"", "", "/out"⟩
      ⟨"http://sonarr:8989", "", 42⟩ demoDisk).state = demoDisk ∧
    (∃ msg, (Exec (demoEnv (fun _ => "") [⟨42, "The Wire"⟩] []) ⟨"", "", "/out"⟩
      ⟨"http://sonarr:8989", "", 42⟩ demoDisk).trace = [.print msg]) ∧
    (∀ e ∈ (Exec (demoEnv (fun _ => "") [⟨42, "The Wire"⟩] []) ⟨"", "", "/out"⟩
      ⟨"http://sonarr:8989", "", 42⟩ demoDisk).trace, e.external = false) :=
  missing_configuration (demoEnv (fun _ => "") [⟨42, "The Wire"⟩] []) ⟨"", "", "/out"⟩
    ⟨"http://sonarr:8989", "", 42⟩ demoDisk (Or.inr (by decide))

/-- When every filesystem step succeeds, the loop makes the calls of the
all-success plan, leaves the world those calls produce, and returns no error. -/
theorem linkLoop_of_stepsSucceed {σ : Type} (env : Env σ) (globals : Globals)
    (title : String) (eps : List EpisodeFile) (w : σ)
    (h : stepsSucceed env globals title eps w = true) :
    linkLoop env globals title eps w =
      ⟨afterSteps env globals title eps w, okPlan globals title eps, .returned none⟩ := by
  induction eps generalizing w with
  | nil => rfl
  | cons ep eps ih =>
    simp only [stepsSucceed, Bool.and_eq_true, Option.isNone_iff_eq_none] at h
    obtain ⟨⟨h1, h2⟩, h3⟩ := h
    have e1 : env.MkdirAll (dstOf globals title ep) 0o755 w =
        ((env.MkdirAll (dstOf globals title ep) 0o755 w).1, none) := Prod.ext rfl h1
    have e2 : env.Link (mapPath globals ep.Path) (linkOf globals title ep)
        (env.MkdirAll (dstOf globals title ep) 0o755 w).1 =
        (afterStep env globals title ep w, none) := Prod.ext rfl h2
    rw [linkLoop_cons_ok env globals title ep eps w _ _ e1 e2, ih _ h3]
    rfl

/-- A run of the loop returns no error only when every filesystem step
succeeded. -/
theorem stepsSucceed_of_linkLoop_ok {σ : Type} (env : Env σ) (globals : Globals)
    (title : String) (eps : List EpisodeFile) (w : σ)
    (h : (linkLoop env globals title eps w).outcome = .returned none) :
    stepsSucceed env globals title eps w = true := by
  induction eps generalizing w with
  | nil => rfl
  | cons ep eps ih =>
    rcases h1 : env.MkdirAll (dstOf globals title ep) 0o755 w with ⟨w1, _ | err⟩
    · rcases h2 : env.Link (mapPath globals ep.Path) (linkOf globals title ep) w1
        with ⟨w2, _ | err⟩
      · rw [linkLoop_cons_ok env globals title ep eps w w1 w2 h1 h2] at h
        simp only [Run.after_outcome] at h
        have h3 := ih w2 h
        simp [stepsSucceed, afterStep, h1, h2, h3]
      · rw [linkLoop_cons_link env globals title ep eps w w1 w2 err h1 h2] at h
        simp at h
    · rw [linkLoop_cons_mkdir env globals title ep eps w w1 err h1] at h
      simp at h

/-- C8: let the configuration be present and both service calls succeed, the
second returning the episode files `eps` and leaving the world `w2`.  When
every filesystem step succeeds (each `env.MkdirAll` and each `env.Link`, asked
in the world the calls before it left, returns no error), `Exec` returns no
error; the world it leaves is the one obtained from `w2` by performing, for
each episode file in the order given, `env.MkdirAll` on its destination
directory with mode 0755 and then `env.Link` from `mapPath` of its path to the
join of that directory and its file name; its calls are the two lookups
followed by exactly those calls and the confirmation line, per episode; so there
are as many links as episode files, and for the empty sequence no call is made
and the world stays `w2`.  Conversely `Exec` returns no error only when every
filesystem step did succeed. -/
theorem Exec_success {σ : Type} (env : Env σ) (globals : Globals) (s : sonarrCmd) (w : σ)
    (series0 : Series) (rest : List Series) (eps : List EpisodeFile) (w1 w2 : σ)
    (hurl : cmpOr s.url (env.getenv "SONARR_URL") ≠ "")
    (hkey : cmpOr s.key (env.getenv "SONARR_KEY") ≠ "")
    (hs : env.GetSeries s.series w = (w1, .ok (series0 :: rest)))
    (he : env.GetSeriesEpisodeFiles series0.ID w1 = (w2, .ok eps)) :
    (stepsSucceed env globals (ReplaceAll series0.Title " " ".") eps w2 = true →
      (Exec env globals s w).outcome = .returned none ∧
      (Exec env globals s w).state =
        afterSteps env globals (ReplaceAll series0.Title " " ".") eps w2 ∧
      (Exec env globals s w).trace =
        [.getSeries s.series, .getSeriesEpisodeFiles series0.ID] ++
          okPlan globals (ReplaceAll series0.Title " " ".") eps ∧
      ((Exec env globals s w).trace.filter Event.linked).length = eps.length ∧
      (eps = [] → (Exec env globals s w).state = w2 ∧ (Exec env globals s w).trace =
        [.getSeries s.series, .getSeriesEpisodeFiles series0.ID])) ∧
    ((Exec env globals s w).outcome = .returned none →
      stepsSucceed env globals (ReplaceAll series0.Title " " ".") eps w2 = true) := by
  rw [Exec_eq_linkLoop env globals s w series0 rest eps w1 w2 hurl hkey hs he]
  refine ⟨?_, ?_⟩
  · intro hfs
    have hl := okPlan_linked globals (ReplaceAll series0.Title " " ".") eps
    rw [linkLoop_of_stepsSucceed env globals _ eps w2 hfs]
    refine ⟨rfl, rfl, rfl, ?_, ?_⟩
    · simp [List.filter_append, hl, Event.linked, List.filter]
    · intro hnil
      subst hnil
      exact ⟨rfl, rfl⟩
  · intro hok
    exact stepsSucceed_of_linkLoop_ok env globals _ eps w2 hok

/-- C8 on the end-to-end scenario of the specification: series `The Wire`, one
episode file of season 1, destination root `/out`, no path mapping.  The run
returns no error, the disk then holds the directory `/out/The.Wire.S01` and the
link `/out/The.Wire.S01/The.Wire.S01E01.mkv` beside the source file, and the
calls are the two lookups, the directory creation, the link and the
confirmation line. -/
theorem Exec_success_witness :
    (Exec (demoEnv (fun _ => "") [⟨42, "The Wire"⟩]
        [⟨1, "/mnt/media/wire_s1e1.mkv", "The.Wire.S01E01"⟩]) ⟨"", "", "/out"⟩
      ⟨"http://sonarr:8989", "key", 42⟩ ⟨[], ["/mnt/media/wire_s1e1.mkv"]⟩).outcome =
      .returned none ∧
    (Exec (demoEnv (fun _ => "") [⟨42, "The Wire"⟩]
        [⟨1, "/mnt/media/wire_s1e1.mkv", "The.Wire.S01E01"⟩]) ⟨"", "", "/out"⟩
      ⟨"http://sonarr:8989", "key", 42⟩ ⟨[], ["/mnt/media/wire_s1e1.mkv"]⟩).state =
      ⟨["/out/The.Wire.S01"],
        ["/mnt/media/wire_s1e1.mkv", "/out/The.Wire.S01/The.Wire.S01E01.mkv"]⟩ ∧
    (Exec (demoEnv (fun _ => "") [⟨42, "The Wire"⟩]
        [⟨1, "/mnt/media/wire_s1e1.mkv", "The.Wire.S01E01"⟩]) ⟨"", "", "/out"⟩
      ⟨"http://sonarr:8989", "key", 42⟩ ⟨[], ["/mnt/media/wire_s1e1.mkv"]⟩).trace =
      [.getSeries 42, .getSeriesEpisodeFiles 42,
       .mkdirAll "/out/The.Wire.S01" 0o755 none,
       .link "/mnt/media/wire_s1e1.mkv" "/out/The.Wire.S01/The.Wire.S01E01.mkv" none,
       .print "sonarr: created link /out/The.Wire.S01/The.Wire.S01E01.mkv\n"] ∧
    stepsSucceed (demoEnv (fun _ => "") [⟨42, "The Wire"⟩]
        [⟨1, "/mnt/media/wire_s1e1.mkv", "The.Wire.S01E01"⟩]) ⟨"", "", "/out"⟩
      (ReplaceAll "The Wire" " " ".") [⟨1, "/mnt/media/wire_s1e1.mkv", "The.Wire.S01E01"⟩]
      ⟨[], []⟩ = false :=
  have h := (Exec_success (demoEnv (fun _ => "") [⟨42, "The Wire"⟩]
      [⟨1, "/mnt/media/wire_s1e1.mkv", "The.Wire.S01E01"⟩]) ⟨"", "", "/out"⟩
    ⟨"http://sonarr:8989", "key", 42⟩ ⟨[], ["/mnt/media/wire_s1e1.mkv"]⟩
    ⟨42, "The Wire"⟩ [] [⟨1, "/mnt/media/wire_s1e1.mkv", "The.Wire.S01E01"⟩]
    ⟨[], ["/mnt/media/wire_s1e1.mkv"]⟩ ⟨[], ["/mnt/media/wire_s1e1.mkv"]⟩
    (by decide) (by decide) rfl rfl).1 (by decide)
  ⟨h.1, h.2.1, h.2.2.1, by decide⟩

/-- C10: `getCmd` returns a workflow exactly when the argument list starts with
`sonarr`; for the empty list and for any other first argument it returns
nothing, and `main` then only prints the usage line and exits with code 2: it
asks for no working directory, parses no flags and executes no workflow. -/
theorem subcommand_selection {σ : Type} (env : Env σ) (args : List String) (w : σ) :
    ((getCmd args).isSome ↔ ∃ rest, args = "sonarr" :: rest) ∧
    (getCmd args = none ↔ args = [] ∨ ∃ a rest, args = a :: rest ∧ a ≠ "sonarr") ∧
    (getCmd args = none →
      main env args w = ⟨w, [.print "starrlink: usage: sonarr <args>\n"], .exit 2⟩) := by
  refine ⟨?_, ?_, ?_⟩
  · cases args with
    | nil => simp [getCmd]
    | cons a rest =>
      by_cases ha : a = "sonarr"
      · simp [getCmd, ha]
      · simp [getCmd, ha]
  · cases args with
    | nil => simp [getCmd]
    | cons a rest =>
      by_cases ha : a = "sonarr"
      · simp [getCmd, ha]
      · simp [getCmd, ha]
  · intro h
    simp [main, h]

/-- C10 on three argument lists: none, an unknown name, and `sonarr`. -/
theorem subcommand_selection_witness :
    getCmd [] = none ∧ getCmd ["radarr", "-series", "1"] = none ∧
    (getCmd ["sonarr", "-series", "1"]).isSome = true ∧
    main (demoEnv (fun _ => "") [] []) ["radarr", "-series", "1"] demoDisk =
      ⟨demoDisk, [.print "starrlink: usage: sonarr <args>\n"], .exit 2⟩ :=
  ⟨by decide, by decide, by decide,
    (subcommand_selection (demoEnv (fun _ => "") [] []) ["radarr", "-series", "1"]
      demoDisk).2.2 (by decide)⟩

/-- C7 at a lookup that succeeds with no series: `Exec` indexes the empty
result, so the run ends in a runtime panic after the one lookup, not in a
returned error. -/
theorem Exec_empty_series :
    (Exec (demoEnv (fun _ => "") [] []) ⟨"", "", "/out"⟩
      ⟨"http://sonarr:8989", "key", 42⟩ demoDisk).outcome =
      .panic "runtime error: index out of range [0] with length 0" ∧
    (Exec (demoEnv (fun _ => "") [] []) ⟨"", "", "/out"⟩
      ⟨"http://sonarr:8989", "key", 42⟩ demoDisk).trace = [.getSeries 42] := by
  decide

/-- C9 at a directory creation that fails: the error `Exec` returns is the fixed
text `sonarr: unable to create destination: ` followed by the error of
`MkdirAll`, and the destination path `/out/The.Wire.S01` is not in it; at a
link creation that fails, the returned error does name the link path. -/
theorem mkdir_failure_message :
    (Exec (readOnlyEnv [⟨42, "The Wire"⟩] [⟨1, "/mnt/media/wire_s1e1.mkv", "The.Wire.S01E01"⟩])
      ⟨"", "", "/out"⟩ ⟨"http://sonarr:8989", "key", 42⟩ demoDisk).trace =
      [.getSeries 42, .getSeriesEpisodeFiles 42,
       .mkdirAll "/out/The.Wire.S01" 0o755 (some "mkdir /out: permission denied")] ∧
    (Exec (readOnlyEnv [⟨42, "The Wire"⟩] [⟨1, "/mnt/media/wire_s1e1.mkv", "The.Wire.S01E01"⟩])
      ⟨"", "", "/out"⟩ ⟨"http://sonarr:8989", "key", 42⟩ demoDisk).outcome =
      .returned (some "sonarr: unable to create destination: mkdir /out: permission denied") ∧
    Contains "sonarr: unable to create destination: mkdir /out: permission denied"
      "/out/The.Wire.S01" = false ∧
    (Exec (demoEnv (fun _ => "") [⟨42, "The Wire"⟩]
        [⟨1, "/mnt/media/wire_s1e1.mkv", "The.Wire.S01E01"⟩])
      ⟨"", "", "/out"⟩ ⟨"http://sonarr:8989", "key", 42⟩ demoDisk).outcome =
      .returned (some ("sonarr: unable to create link at /out/The.Wire.S01/The.Wire.S01E01.mkv: "
        ++ "link /mnt/media/wire_s1e1.mkv /out/The.Wire.S01/The.Wire.S01E01.mkv: "
        ++ "no such file or directory")) ∧
    Contains "sonarr: unable to create link at /out/The.Wire.S01/The.Wire.S01E01.mkv: "
      "/out/The.Wire.S01/The.Wire.S01E01.mkv" = true := by
  refine ⟨by decide, by decide, by decide, ?_, by decide⟩
  rfl

end Starrlink
